import Mathlib

/-!
# pywhisper.cpp : a verification development

A shallow embedding of `examples/whisper.py/pywhisper.cpp`, the pybind11 wrapper around the
whisper engine, and theorems about it.

* machine integers are `Int` with explicit two's-complement wrapping (`to_int32`, `to_int64`);
* C++ division of integers truncates toward zero (`Int.tdiv`);
* a `char` buffer is a `List Char`, wrapped into a `String` on return;
* the engine (`whisper.h`), the WAV reader (`common.h`) and the value of
  `WHISPER_SAMPLE_RATE` are not part of the file and are taken as parameters.
-/

namespace PyWhisper

/-! ## Machine integers -/

/-- Conversion to a 32-bit `int` (two's complement, modulo `2^32`). -/
def to_int32 (x : Int) : Int := (x + 2147483648) % 4294967296 - 2147483648

/-- Conversion to an `int64_t` (two's complement, modulo `2^64`). -/
def to_int64 (x : Int) : Int :=
  (x + 9223372036854775808) % 18446744073709551616 - 9223372036854775808

/-! ## `snprintf` with `%0<w>d` -/

/-- The character of one decimal digit. -/
def digitChar (d : Nat) : Char := Char.ofNat (48 + d)

/-- Decimal digits of a natural number, most significant first; `fuel` bounds the number of
digits produced. -/
def natDigitsAux : Nat → Nat → List Char → List Char
  | 0, _, acc => acc
  | fuel + 1, n, acc =>
    if n < 10 then digitChar n :: acc
    else natDigitsAux fuel (n / 10) (digitChar (n % 10) :: acc)

/-- Decimal digits of a natural number (`0` prints as one digit). -/
def natDigits (n : Nat) : List Char := natDigitsAux (n + 1) n []

/-- The conversion `%0<width>d` of `printf`: a minus sign for a negative value, then the decimal
digits, padded with zeros on the left up to `width` characters in all. The width is a minimum:
a longer number is printed in full. -/
def fmt_d (width : Nat) (v : Int) : List Char :=
  let ds := natDigits v.natAbs
  if v < 0 then '-' :: (List.replicate (width - 1 - ds.length) '0' ++ ds)
  else List.replicate (width - ds.length) '0' ++ ds

/-- What `snprintf(buf, size, ...)` leaves in `buf`: at most `size - 1` characters. -/
def snprintf (size : Nat) (out : List Char) : List Char := out.take (size - 1)

/-! ## Timestamp formatter -/

/-- The function `to_timestamp(int64_t t, bool comma)`; signed overflow is modelled as
wrapping. -/
def to_timestamp (t : Int) (comma : Bool) : String :=
  let msec0 := to_int64 (t * 10)
  let hr := msec0.tdiv (1000 * 60 * 60)
  let msec1 := to_int64 (msec0 - to_int64 (hr * (1000 * 60 * 60)))
  let min := msec1.tdiv (1000 * 60)
  let msec2 := to_int64 (msec1 - to_int64 (min * (1000 * 60)))
  let sec := msec2.tdiv 1000
  let msec3 := to_int64 (msec2 - to_int64 (sec * 1000))
  String.mk (snprintf 32
    (fmt_d 2 (to_int32 hr) ++ ':' :: fmt_d 2 (to_int32 min) ++ ':' :: fmt_d 2 (to_int32 sec)
      ++ (if comma then ',' else '.') :: fmt_d 3 (to_int32 msec3)))

/-- The function `timestamp_to_sample(int64_t t, int n_samples)`; `sample_rate` is the macro
`WHISPER_SAMPLE_RATE` of `whisper.h`. -/
def timestamp_to_sample (sample_rate : Int) (t : Int) (n_samples : Int) : Int :=
  max 0 (min (to_int32 (n_samples - 1))
    (to_int32 ((to_int64 (t * sample_rate)).tdiv 100)))


/-- The two-digit decimal numeral of `x` (for `0 ≤ x < 100`), as the specification writes `HH`,
`MM` and `SS`. -/
def two_digits (x : Int) : List Char :=
  [digitChar (x / 10).toNat, digitChar (x % 10).toNat]

/-- The three-digit decimal numeral of `x` (for `0 ≤ x < 1000`), as the specification writes
`mmm`. -/
def three_digits (x : Int) : List Char :=
  [digitChar (x / 100).toNat, digitChar (x / 10 % 10).toNat, digitChar (x % 10).toNat]

/-- The index the specification gives for a time `t`: `(t * sample_rate) / 100` clamped to
`[0, n_samples - 1]`, computed without any loss of range. -/
def sample_index_spec (sample_rate : Int) (t : Int) (n_samples : Int) : Int :=
  max 0 (min (n_samples - 1) ((t * sample_rate).tdiv 100))

/-! ## Floating point

The values of a `float` or `double` are the finite values (rationals), the two infinities and
NaN. The two zeros compare equal and are not told apart. Every operation computes the exact
result and rounds it with `rnd`, the rounding of the format, which is a parameter. -/

/-- A floating-point value. -/
inductive Fp where
  | fin (q : ℚ)
  | pinf
  | ninf
  | nan
  deriving DecidableEq

namespace Fp

/-- The function `fabs`. -/
def fabs : Fp → Fp
  | fin q => fin |q|
  | pinf => pinf
  | ninf => pinf
  | nan => nan

/-- Addition of two doubles, `a + b`. -/
def add (rnd : ℚ → Fp) : Fp → Fp → Fp
  | nan, _ => nan
  | _, nan => nan
  | fin x, fin y => rnd (x + y)
  | pinf, ninf => nan
  | ninf, pinf => nan
  | pinf, _ => pinf
  | _, pinf => pinf
  | ninf, _ => ninf
  | _, ninf => ninf

/-- Product of an infinity of sign `pos` with the finite value `x`. -/
def mul_inf (pos : Bool) (x : ℚ) : Fp :=
  if x = 0 then nan else if decide (0 < x) = pos then pinf else ninf

/-- Multiplication of two doubles, `a * b`. -/
def mul (rnd : ℚ → Fp) : Fp → Fp → Fp
  | nan, _ => nan
  | _, nan => nan
  | fin x, fin y => rnd (x * y)
  | fin x, pinf => mul_inf true x
  | fin x, ninf => mul_inf false x
  | pinf, fin y => mul_inf true y
  | ninf, fin y => mul_inf false y
  | pinf, pinf => pinf
  | ninf, ninf => pinf
  | pinf, ninf => ninf
  | ninf, pinf => ninf

/-- Comparison `a > b`; false as soon as one side is NaN. -/
def gt : Fp → Fp → Bool
  | nan, _ => false
  | _, nan => false
  | fin x, fin y => decide (y < x)
  | pinf, pinf => false
  | pinf, _ => true
  | _, pinf => false
  | ninf, _ => false
  | _, ninf => true

/-- The order of the non-NaN values, `a ≤ b`. -/
def le : Fp → Fp → Bool
  | nan, _ => false
  | _, nan => false
  | fin x, fin y => decide (x ≤ y)
  | ninf, _ => true
  | _, pinf => true
  | pinf, _ => false
  | _, ninf => false

end Fp

/-- The laws of a rounding `rnd` of exact results into the format: zero is representable,
rounding is monotone, and a value that is the result of a rounding is representable (it rounds
to itself). -/
structure RoundingLaws (rnd : ℚ → Fp) : Prop where
  zero : rnd 0 = Fp.fin 0
  mono : ∀ a b, a ≤ b → Fp.le (rnd a) (rnd b) = true
  idem : ∀ a r, rnd a = Fp.fin r → rnd r = Fp.fin r

/-- The literal `1.1`, as the `double` nearest to it. -/
def lit_1_1 : Fp := Fp.fin (2476979795053773 / 2251799813685248)

/-! ## Diarization estimator -/

/-- The loop of `estimate_diarization_speaker` over the sample indices `j`; reading past the
end of a channel has no result. -/
def energy_loop (rnd : ℚ → Fp) (c0 c1 : List Fp) : List Nat → Fp × Fp → Option (Fp × Fp)
  | [], e => some e
  | j :: js, e =>
    match c0[j]?, c1[j]? with
    | some x0, some x1 =>
      energy_loop rnd c0 c1 js (Fp.add rnd e.1 (Fp.fabs x0), Fp.add rnd e.2 (Fp.fabs x1))
    | _, _ => none

/-- The two energies `energy0`, `energy1` that `estimate_diarization_speaker` sums over the
window. -/
def window_energy (sample_rate : Int) (rnd : ℚ → Fp) (pcmf32s : List (List Fp))
    (t0 t1 : Int) : Option (Fp × Fp) :=
  match pcmf32s[0]? with
  | none => none
  | some c0 =>
    let n_samples : Int := to_int64 c0.length
    let is0 : Int := timestamp_to_sample sample_rate t0 (to_int32 n_samples)
    let is1 : Int := timestamp_to_sample sample_rate t1 (to_int32 n_samples)
    energy_loop rnd c0 (pcmf32s[1]?.getD []) (List.range' is0.toNat (is1 - is0).toNat)
      (Fp.fin 0, Fp.fin 0)

/-- The label built from the identifier: bare, or decorated as `(speaker <id>)`. -/
def speaker_label (id_only : Bool) (speaker : String) : String :=
  if !id_only then ("(speaker " ++ speaker) ++ ")" else speaker

/-- The function `estimate_diarization_speaker(pcmf32s, t0, t1, id_only)`; `none` when a
sample is read outside a channel. -/
def estimate_diarization_speaker (sample_rate : Int) (rnd : ℚ → Fp)
    (pcmf32s : List (List Fp)) (t0 t1 : Int) (id_only : Bool) : Option String :=
  match window_energy sample_rate rnd pcmf32s t0 t1 with
  | none => none
  | some (energy0, energy1) =>
    let speaker :=
      if Fp.gt energy0 (Fp.mul rnd lit_1_1 energy1) then "0"
      else if Fp.gt energy1 (Fp.mul rnd lit_1_1 energy0) then "1"
      else "?"
    some (speaker_label id_only speaker)

/-- The energies a sum of absolute values can take: NaN, plus infinity, or a finite value that
is not negative and is representable. -/
def EnergyValue (rnd : ℚ → Fp) (v : Fp) : Prop :=
  v = Fp.nan ∨ v = Fp.pinf ∨ ∃ r : ℚ, 0 ≤ r ∧ v = Fp.fin r ∧ rnd r = Fp.fin r

/-! ## The engine boundary

`whisper.h` and `common.h` are outside the file. What the wrapper calls there is a parameter
of the model: a record of functions, `Engine`. A context handle is a number, `none` is
`nullptr`. The `float` thresholds of the parameter records are passed through unread and are
left out; so is the text written to the terminal. -/

/-- The enumeration `whisper_sampling_strategy`. -/
inductive Strategy where
  | WHISPER_SAMPLING_GREEDY
  | WHISPER_SAMPLING_BEAM_SEARCH
  deriving DecidableEq

/-- The fields of `whisper_full_params` that `transcribe` assigns; the two callback fields say
whether the callback of the wrapper is registered. -/
structure whisper_full_params where
  strategy : Strategy
  print_realtime : Bool
  print_progress : Bool
  print_timestamps : Bool
  print_special : Bool
  translate : Bool
  language : String
  detect_language : Bool
  n_threads : Int
  n_max_text_ctx : Int
  offset_ms : Int
  duration_ms : Int
  token_timestamps : Bool
  max_len : Int
  split_on_word : Bool
  speed_up : Bool
  debug_mode : Bool
  tdrz_enable : Bool
  initial_prompt : String
  greedy_best_of : Int
  beam_search_beam_size : Int
  new_segment_callback : Bool
  progress_callback : Bool
  deriving DecidableEq

/-- What the accessors `whisper_full_n_segments`, `whisper_full_get_segment_t0`,
`whisper_full_get_segment_t1` and `whisper_full_get_segment_text` return on a context after a
run of the engine. -/
structure EngineSegments where
  n_segments : Int
  t0 : Int → Int
  t1 : Int → Int
  text : Int → String

/-- The functions of the engine and of the WAV reader that the wrapper calls. -/
structure Engine where
  hardware_concurrency : Int
  whisper_full_default_params : Strategy → whisper_full_params
  whisper_init_from_file_with_params : String → Option Nat
  read_wav : String → Bool → Option (List Fp × List (List Fp))
  whisper_is_multilingual : Option Nat → Bool
  whisper_full_parallel :
    Option Nat → whisper_full_params → List Fp → Int → Int × EngineSegments

/-- One call into the engine on a context handle, as recorded in the trace of the state. -/
inductive EngineCall where
  | init_from_file (model_path : String)
  | is_multilingual (ctx : Option Nat)
  | full_parallel (ctx : Option Nat) (wparams : whisper_full_params) (n_processors : Int)
  | full_n_segments (ctx : Option Nat)
  | full_get_segment_t0 (ctx : Option Nat) (i : Int)
  | full_get_segment_t1 (ctx : Option Nat) (i : Int)
  | full_get_segment_text (ctx : Option Nat) (i : Int)
  | free (ctx : Option Nat)
  deriving DecidableEq

/-- The context handle an engine call is made on, if it takes one. -/
def EngineCall.ctx : EngineCall → Option (Option Nat)
  | .init_from_file _ => none
  | .is_multilingual c => some c
  | .full_parallel c _ _ => some c
  | .full_n_segments c => some c
  | .full_get_segment_t0 c _ => some c
  | .full_get_segment_t1 c _ => some c
  | .full_get_segment_text c _ => some c
  | .free c => some c

/-! ## Data model of the wrapper -/

/-- The record `segment_t`. -/
structure segment_t where
  start_tm : Int
  end_tm : Int
  text : String
  deriving DecidableEq

/-- The record `transcribe_result_t`. -/
structure transcribe_result_t where
  success : Bool
  segments : List segment_t
  deriving DecidableEq

/-- The record `whisper_params` (without the `float` thresholds and the output file names). -/
structure whisper_params where
  n_threads : Int
  n_processors : Int
  offset_t_ms : Int
  offset_n : Int
  duration_ms : Int
  progress_step : Int
  max_context : Int
  max_len : Int
  best_of : Int
  beam_size : Int
  speed_up : Bool
  debug_mode : Bool
  translate : Bool
  detect_language : Bool
  diarize : Bool
  tinydiarize : Bool
  split_on_word : Bool
  no_fallback : Bool
  output_wts : Bool
  output_jsn_full : Bool
  print_special : Bool
  print_colors : Bool
  print_progress : Bool
  no_timestamps : Bool
  language : String
  prompt : String
  deriving DecidableEq

/-- The default member initializers of `whisper_params`. -/
def whisper_params_default (E : Engine) : whisper_params where
  n_threads := min 4 (to_int32 E.hardware_concurrency)
  n_processors := 1
  offset_t_ms := 0
  offset_n := 0
  duration_ms := 0
  progress_step := 5
  max_context := -1
  max_len := 0
  best_of := (E.whisper_full_default_params .WHISPER_SAMPLING_GREEDY).greedy_best_of
  beam_size :=
    (E.whisper_full_default_params .WHISPER_SAMPLING_BEAM_SEARCH).beam_search_beam_size
  speed_up := false
  debug_mode := false
  translate := false
  detect_language := false
  diarize := false
  tinydiarize := false
  split_on_word := false
  no_fallback := false
  output_wts := false
  output_jsn_full := false
  print_special := false
  print_colors := false
  print_progress := false
  no_timestamps := false
  language := "en"
  prompt := ""

/-- The globals `g_ctx` and `whisper_mutex` (`true` when locked), and the trace of the calls
made into the engine. -/
structure State where
  g_ctx : Option Nat
  whisper_mutex : Bool
  calls : List EngineCall

/-- The call `whisper_mutex.lock()`: on a mutex that is held the call does not return. -/
def mutex_lock (s : State) : Option State :=
  if s.whisper_mutex then none else some { s with whisper_mutex := true }

/-- The call `whisper_mutex.unlock()`. -/
def mutex_unlock (s : State) : State := { s with whisper_mutex := false }

/-- Record one call into the engine. -/
def State.call (s : State) (c : EngineCall) : State := { s with calls := s.calls ++ [c] }

/-! ## Context manager -/

/-- The function `load(model_path)`: the new state and the returned code. -/
def load (E : Engine) (s : State) (model_path : String) : Option (State × Int) :=
  match mutex_lock s with
  | none => none
  | some s1 =>
    let s2 : State :=
      { s1.call (.init_from_file model_path) with
        g_ctx := E.whisper_init_from_file_with_params model_path }
    if s2.g_ctx = none then some (mutex_unlock s2, -1)
    else some (mutex_unlock s2, 0)

/-- The function `destroy()`. -/
def destroy (s : State) : Option State :=
  if s.g_ctx ≠ none then
    match mutex_lock s with
    | none => none
    | some s1 => some (mutex_unlock { s1.call (.free s1.g_ctx) with g_ctx := none })
  else some s

/-- The function `is_initialized()`. -/
def is_initialized (s : State) : Bool := s.g_ctx ≠ none

/-! ## Transcription -/

/-- The block of `transcribe` that applies the language rules to `params`, given the answer of
`whisper_is_multilingual(g_ctx)`. -/
def language_rules (multilingual : Bool) (params : whisper_params) : whisper_params :=
  let params1 :=
    if !multilingual then
      if params.language ≠ "en" || params.translate then
        { params with language := "en", translate := false }
      else params
    else params
  if params1.detect_language then { params1 with language := "auto" } else params1

/-- The block of `transcribe` that fills `wparams` from `params`. -/
def make_wparams (E : Engine) (params : whisper_params) : whisper_full_params :=
  let wparams := E.whisper_full_default_params .WHISPER_SAMPLING_GREEDY
  { wparams with
    strategy :=
      if params.beam_size > 1 then .WHISPER_SAMPLING_BEAM_SEARCH else .WHISPER_SAMPLING_GREEDY
    print_realtime := false
    print_progress := params.print_progress
    print_timestamps := !params.no_timestamps
    print_special := params.print_special
    translate := params.translate
    language := params.language
    detect_language := params.detect_language
    n_threads := params.n_threads
    n_max_text_ctx :=
      if params.max_context ≥ 0 then params.max_context else wparams.n_max_text_ctx
    offset_ms := params.offset_t_ms
    duration_ms := params.duration_ms
    token_timestamps := params.output_wts || params.output_jsn_full || decide (params.max_len > 0)
    max_len := if params.output_wts && decide (params.max_len = 0) then 60 else params.max_len
    split_on_word := params.split_on_word
    speed_up := params.speed_up
    debug_mode := params.debug_mode
    tdrz_enable := params.tinydiarize
    initial_prompt := params.prompt
    greedy_best_of := params.best_of
    beam_search_beam_size := params.beam_size
    -- `print_realtime` is false at this point, so the segment callback is always registered
    new_segment_callback := true
    progress_callback := if params.print_progress then true else wparams.progress_callback }

/-- The record `params` of `transcribe` after the two assignments from the arguments. -/
def request_params (E : Engine) (language : String) (beam_size : Int) : whisper_params :=
  { whisper_params_default E with language := language, beam_size := beam_size }

/-- The configuration `transcribe` hands to the engine for a language and a beam size, on the
context `ctx`. -/
def transcribe_wparams (E : Engine) (ctx : Option Nat) (language : String) (beam_size : Int) :
    whisper_full_params :=
  make_wparams E (language_rules (E.whisper_is_multilingual ctx)
    (request_params E language beam_size))

/-- The loop of `transcribe` that reads the segments back from the engine. -/
def parse_result (segs : EngineSegments) : List segment_t :=
  (List.range segs.n_segments.toNat).map fun (i : Nat) =>
    { start_tm := to_int64 (segs.t0 (i : Int) * 10)
      end_tm := to_int64 (segs.t1 (i : Int) * 10)
      text := segs.text (i : Int) }

/-- The engine calls of the loop of `transcribe` that reads the segments back. -/
def parse_result_calls (ctx : Option Nat) (n_segments : Int) : List EngineCall :=
  (List.range n_segments.toNat).flatMap fun (i : Nat) =>
    [.full_get_segment_t0 ctx (i : Int), .full_get_segment_t1 ctx (i : Int),
      .full_get_segment_text ctx (i : Int)]

/-- The function `transcribe(audio_path, language, beam_size)`: the new state and the result;
`none` when the call does not return. -/
def transcribe (E : Engine) (s : State) (audio_path language : String) (beam_size : Int) :
    Option (State × transcribe_result_t) :=
  let params : whisper_params := request_params E language beam_size
  let result : transcribe_result_t := { success := false, segments := [] }
  match mutex_lock s with
  | none => none
  | some s1 =>
    match E.read_wav audio_path params.diarize with
    | none => some (mutex_unlock s1, result)
    | some (pcmf32, _) =>
      let s2 := s1.call (.is_multilingual s1.g_ctx)
      let params := language_rules (E.whisper_is_multilingual s1.g_ctx) params
      let wparams := make_wparams E params
      let s3 := s2.call (.full_parallel s2.g_ctx wparams params.n_processors)
      let run := E.whisper_full_parallel s2.g_ctx wparams pcmf32 params.n_processors
      if run.1 ≠ 0 then
        some (mutex_unlock s3, { result with success := false })
      else
        let s4 : State :=
          { s3 with
            calls := (s3.calls ++ [.full_n_segments s3.g_ctx])
              ++ parse_result_calls s3.g_ctx run.2.n_segments }
        some (mutex_unlock s4,
          { success := true, segments := result.segments ++ parse_result run.2 })

/-! ## A concrete engine, for the theorems stated at an explicit input -/

/-- Default inference parameters of the concrete engine. -/
def demo_default_params (_ : Strategy) : whisper_full_params where
  strategy := .WHISPER_SAMPLING_GREEDY
  print_realtime := true
  print_progress := true
  print_timestamps := true
  print_special := false
  translate := false
  language := "en"
  detect_language := false
  n_threads := 4
  n_max_text_ctx := 16384
  offset_ms := 0
  duration_ms := 0
  token_timestamps := false
  max_len := 0
  split_on_word := false
  speed_up := false
  debug_mode := false
  tdrz_enable := false
  initial_prompt := ""
  greedy_best_of := 5
  beam_search_beam_size := 5
  new_segment_callback := false
  progress_callback := false

/-- Two segments, `[0, 150]` and `[150, 320]` in centiseconds. -/
def demo_segments : EngineSegments where
  n_segments := 2
  t0 := fun i => if i = 0 then 0 else 150
  t1 := fun i => if i = 0 then 150 else 320
  text := fun i => if i = 0 then " hello" else " world"

/-- No segment at all. -/
def demo_no_segments : EngineSegments where
  n_segments := 0
  t0 := fun _ => 0
  t1 := fun _ => 0
  text := fun _ => ""

/-- A concrete engine: one model file can be loaded, into an English-only context; the file
`a.wav` decodes and is transcribed into `demo_segments`, the file `bad.wav` decodes and makes
the run fail with status `-1`, no other audio file decodes. -/
def demo_engine : Engine where
  hardware_concurrency := 8
  whisper_full_default_params := demo_default_params
  whisper_init_from_file_with_params := fun model_path =>
    if model_path = "models/ggml-base.en.bin" then some 1 else none
  read_wav := fun audio_path _ =>
    if audio_path = "a.wav" then some ([Fp.fin 0, Fp.fin 1], [])
    else if audio_path = "bad.wav" then some ([], [])
    else none
  whisper_is_multilingual := fun _ => false
  whisper_full_parallel := fun _ _ pcmf32 _ =>
    if pcmf32.length = 0 then (-1, demo_no_segments) else (0, demo_segments)

/-- A loud channel: two samples of amplitude one. -/
def demo_loud : List Fp := [Fp.fin 1, Fp.fin (-1)]

/-- A silent channel of two samples. -/
def demo_silent : List Fp := [Fp.fin 0, Fp.fin 0]

/-- The state in which the context `1` is loaded and the mutex is free. -/
def demo_loaded : State where
  g_ctx := some 1
  whisper_mutex := false
  calls := []

/-- The state before any `load`: no context, the mutex free. -/
def demo_unloaded : State where
  g_ctx := none
  whisper_mutex := false
  calls := []

/-! ## Lemmas on machine integers and on decimal printing -/

theorem to_int32_of_range (x : Int) (h1 : -2147483648 ≤ x) (h2 : x < 2147483648) :
    to_int32 x = x := by
  unfold to_int32; omega

theorem to_int64_of_range (x : Int) (h1 : -9223372036854775808 ≤ x)
    (h2 : x < 9223372036854775808) : to_int64 x = x := by
  unfold to_int64; omega

theorem natDigits_of_lt_10 (n : Nat) (h : n < 10) : natDigits n = [digitChar n] := by
  simp [natDigits, natDigitsAux, h]

theorem natDigits_of_lt_100 (n : Nat) (h1 : 10 ≤ n) (h2 : n < 100) :
    natDigits n = [digitChar (n / 10), digitChar (n % 10)] := by
  obtain ⟨m, rfl⟩ : ∃ m, n = m + 1 := ⟨n - 1, by omega⟩
  have ha : ¬ (m + 1 < 10) := by omega
  have hb : (m + 1) / 10 < 10 := by omega
  simp [natDigits, natDigitsAux, ha, hb]

theorem natDigits_of_lt_1000 (n : Nat) (h1 : 100 ≤ n) (h2 : n < 1000) :
    natDigits n = [digitChar (n / 100), digitChar (n / 10 % 10), digitChar (n % 10)] := by
  obtain ⟨m, rfl⟩ : ∃ m, n = m + 2 := ⟨n - 2, by omega⟩
  have ha : ¬ (m + 2 < 10) := by omega
  have hb : ¬ ((m + 2) / 10 < 10) := by omega
  have hc : (m + 2) / 10 / 10 < 10 := by omega
  have hd : (m + 2) / 10 / 10 = (m + 2) / 100 := by omega
  simp [natDigits, natDigitsAux, ha, hb, hd]
  intro h
  omega

theorem natDigitsAux_length_ge (fuel n : Nat) (acc : List Char) :
    acc.length ≤ (natDigitsAux fuel n acc).length := by
  induction fuel generalizing n acc with
  | zero => simp [natDigitsAux]
  | succ f ih =>
    unfold natDigitsAux
    split
    · simp
    · have := ih (n / 10) (digitChar (n % 10) :: acc)
      simp only [List.length_cons] at this
      omega

theorem natDigitsAux_length_le (k fuel n : Nat) (acc : List Char) (hk : 1 ≤ k)
    (hn : n < 10 ^ k) : (natDigitsAux fuel n acc).length ≤ k + acc.length := by
  induction fuel generalizing n acc k with
  | zero => simp [natDigitsAux]
  | succ f ih =>
    unfold natDigitsAux
    split
    · simp only [List.length_cons]; omega
    · rename_i h10
      obtain ⟨j, rfl⟩ : ∃ j, k = j + 1 := ⟨k - 1, by omega⟩
      have hj : 1 ≤ j := by
        rcases Nat.eq_zero_or_pos j with h | h
        · subst h; simp at hn; omega
        · exact h
      have hdiv : n / 10 < 10 ^ j := by
        rw [Nat.div_lt_iff_lt_mul (by norm_num)]
        rw [pow_succ] at hn; exact hn
      have := ih j (n / 10) (digitChar (n % 10) :: acc) hj hdiv
      simp only [List.length_cons] at this
      omega

theorem natDigitsAux_succ_length (fuel n : Nat) (acc : List Char) :
    acc.length + 1 ≤ (natDigitsAux (fuel + 1) n acc).length := by
  rw [natDigitsAux]
  split
  · simp
  · have := natDigitsAux_length_ge fuel (n / 10) (digitChar (n % 10) :: acc)
    simpa using this

theorem natDigits_length_ge_three (n : Nat) (h : 100 ≤ n) : 3 ≤ (natDigits n).length := by
  obtain ⟨m, rfl⟩ : ∃ m, n = m + 2 := ⟨n - 2, by omega⟩
  have ha : ¬ (m + 2 < 10) := by omega
  have hb : ¬ ((m + 2) / 10 < 10) := by omega
  unfold natDigits
  rw [natDigitsAux, if_neg ha, natDigitsAux, if_neg hb]
  have := natDigitsAux_succ_length m ((m + 2) / 10 / 10)
    [digitChar ((m + 2) / 10 % 10), digitChar ((m + 2) % 10)]
  simpa using this

theorem natDigits_length_le_ten (n : Nat) (h : n < 2147483648) : (natDigits n).length ≤ 10 := by
  have := natDigitsAux_length_le 10 (n + 1) n [] (by norm_num) (by norm_num; omega)
  simpa [natDigits] using this

theorem fmt_d_two (x : Int) (h0 : 0 ≤ x) (h1 : x < 100) : fmt_d 2 x = two_digits x := by
  obtain ⟨n, rfl⟩ := Int.eq_ofNat_of_zero_le h0
  have hn : n < 100 := by omega
  have e1 : ((n : Int) / 10).toNat = n / 10 := by omega
  have e2 : ((n : Int) % 10).toNat = n % 10 := by omega
  have hneg : ¬ ((n : Int) < 0) := by omega
  simp only [fmt_d, two_digits, e1, e2, hneg, if_false, Int.natAbs_ofNat]
  by_cases h : n < 10
  · rw [natDigits_of_lt_10 n h]
    have : n / 10 = 0 := by omega
    have h2 : n % 10 = n := by omega
    rw [this, h2]
    rfl
  · rw [natDigits_of_lt_100 n (by omega) hn]
    rfl

theorem fmt_d_three (x : Int) (h0 : 0 ≤ x) (h1 : x < 1000) : fmt_d 3 x = three_digits x := by
  obtain ⟨n, rfl⟩ := Int.eq_ofNat_of_zero_le h0
  have hn : n < 1000 := by omega
  have e1 : ((n : Int) / 100).toNat = n / 100 := by omega
  have e2 : ((n : Int) / 10 % 10).toNat = n / 10 % 10 := by omega
  have e3 : ((n : Int) % 10).toNat = n % 10 := by omega
  have hneg : ¬ ((n : Int) < 0) := by omega
  simp only [fmt_d, three_digits, e1, e2, e3, hneg, if_false, Int.natAbs_ofNat]
  by_cases h : n < 10
  · rw [natDigits_of_lt_10 n h]
    have a1 : n / 100 = 0 := by omega
    have a2 : n / 10 % 10 = 0 := by omega
    have a3 : n % 10 = n := by omega
    rw [a1, a2, a3]
    rfl
  · by_cases h' : n < 100
    · rw [natDigits_of_lt_100 n (by omega) h']
      have a1 : n / 100 = 0 := by omega
      have a2 : n / 10 % 10 = n / 10 := by omega
      rw [a1, a2]
      rfl
    · rw [natDigits_of_lt_1000 n (by omega) hn]
      rfl

theorem fmt_d_two_of_ge (x : Int) (h0 : 100 ≤ x) : fmt_d 2 x = natDigits x.toNat := by
  obtain ⟨n, rfl⟩ := Int.eq_ofNat_of_zero_le (by omega : (0 : Int) ≤ x)
  have hneg : ¬ ((n : Int) < 0) := by omega
  have hl := natDigits_length_ge_three n (by omega)
  have : 2 - (natDigits n).length = 0 := by omega
  simp [fmt_d, hneg, this]

theorem fmt_d_two_length_le (x : Int) (h0 : 0 ≤ x) (h1 : x < 2147483648) :
    (fmt_d 2 x).length ≤ 10 := by
  obtain ⟨n, rfl⟩ := Int.eq_ofNat_of_zero_le h0
  have hneg : ¬ ((n : Int) < 0) := by omega
  have hl := natDigits_length_le_ten n (by omega)
  simp only [fmt_d, hneg, if_false, Int.natAbs_ofNat, List.length_append, List.length_replicate]
  omega

theorem to_timestamp_eq (t : Int) (comma : Bool) (h0 : 0 ≤ t)
    (hhr : t * 10 / 3600000 < 2147483648) :
    to_timestamp t comma = String.mk
      (fmt_d 2 (t * 10 / 3600000) ++ ':' :: two_digits (t * 10 / 60000 % 60)
        ++ ':' :: two_digits (t * 10 / 1000 % 60)
        ++ (if comma then ',' else '.') :: three_digits (t * 10 % 1000)) := by
  have a0 : to_int64 (t * 10) = t * 10 := to_int64_of_range _ (by omega) (by omega)
  have a1 : (t * 10).tdiv (1000 * 60 * 60) = t * 10 / 3600000 :=
    Int.tdiv_eq_ediv (by omega) (by norm_num)
  have a2 : to_int64 (t * 10 / 3600000 * (1000 * 60 * 60)) = t * 10 / 3600000 * 3600000 :=
    to_int64_of_range _ (by omega) (by omega)
  have a3 : to_int64 (t * 10 - t * 10 / 3600000 * 3600000) = t * 10 % 3600000 := by
    rw [to_int64_of_range _ (by omega) (by omega)]; omega
  have a4 : (t * 10 % 3600000).tdiv (1000 * 60) = t * 10 / 60000 % 60 := by
    rw [Int.tdiv_eq_ediv (by omega) (by norm_num)]; omega
  have a5 : to_int64 (t * 10 / 60000 % 60 * (1000 * 60)) = t * 10 / 60000 % 60 * 60000 :=
    to_int64_of_range _ (by omega) (by omega)
  have a6 : to_int64 (t * 10 % 3600000 - t * 10 / 60000 % 60 * 60000) = t * 10 % 60000 := by
    rw [to_int64_of_range _ (by omega) (by omega)]; omega
  have a7 : (t * 10 % 60000).tdiv 1000 = t * 10 / 1000 % 60 := by
    rw [Int.tdiv_eq_ediv (by omega) (by norm_num)]; omega
  have a8 : to_int64 (t * 10 / 1000 % 60 * 1000) = t * 10 / 1000 % 60 * 1000 :=
    to_int64_of_range _ (by omega) (by omega)
  have a9 : to_int64 (t * 10 % 60000 - t * 10 / 1000 % 60 * 1000) = t * 10 % 1000 := by
    rw [to_int64_of_range _ (by omega) (by omega)]; omega
  have b1 : to_int32 (t * 10 / 3600000) = t * 10 / 3600000 :=
    to_int32_of_range _ (by omega) hhr
  have b2 : to_int32 (t * 10 / 60000 % 60) = t * 10 / 60000 % 60 :=
    to_int32_of_range _ (by omega) (by omega)
  have b3 : to_int32 (t * 10 / 1000 % 60) = t * 10 / 1000 % 60 :=
    to_int32_of_range _ (by omega) (by omega)
  have b4 : to_int32 (t * 10 % 1000) = t * 10 % 1000 :=
    to_int32_of_range _ (by omega) (by omega)
  have hlen := fmt_d_two_length_le (t * 10 / 3600000) (by omega) hhr
  simp only [to_timestamp, a0, a1, a2, a3, a4, a5, a6, a7, a8, a9, b1, b2, b3, b4]
  rw [fmt_d_two (t * 10 / 60000 % 60) (by omega) (by omega),
    fmt_d_two (t * 10 / 1000 % 60) (by omega) (by omega),
    fmt_d_three (t * 10 % 1000) (by omega) (by omega)]
  congr 1
  unfold snprintf
  apply List.take_of_length_le
  simp only [List.length_append, List.length_cons, two_digits, three_digits, List.length_nil]
  omega

/-! ## Lemmas on the diarization estimator -/

theorem exact_rounding_laws : RoundingLaws Fp.fin where
  zero := rfl
  mono := by intro a b h; simp [Fp.le, h]
  idem := by intro a r _; rfl

theorem energyValue_zero (rnd : ℚ → Fp) (hr : RoundingLaws rnd) :
    EnergyValue rnd (Fp.fin 0) :=
  Or.inr (Or.inr ⟨0, le_refl 0, rfl, hr.zero⟩)

theorem energyValue_of_rnd (rnd : ℚ → Fp) (hr : RoundingLaws rnd) (q : ℚ) (hq : 0 ≤ q) :
    EnergyValue rnd (rnd q) := by
  have hm := hr.mono 0 q hq
  rw [hr.zero] at hm
  cases h : rnd q with
  | fin z =>
    rw [h] at hm
    have hz : 0 ≤ z := by simpa [Fp.le] using hm
    exact Or.inr (Or.inr ⟨z, hz, rfl, hr.idem q z h⟩)
  | pinf => exact Or.inr (Or.inl rfl)
  | ninf => rw [h] at hm; simp [Fp.le] at hm
  | nan => exact Or.inl rfl

theorem energyValue_add (rnd : ℚ → Fp) (hr : RoundingLaws rnd) (e x : Fp)
    (he : EnergyValue rnd e) : EnergyValue rnd (Fp.add rnd e (Fp.fabs x)) := by
  rcases he with rfl | rfl | ⟨r, hr0, rfl, _⟩
  · cases x <;> exact Or.inl rfl
  · cases x
    · exact Or.inr (Or.inl rfl)
    · exact Or.inr (Or.inl rfl)
    · exact Or.inr (Or.inl rfl)
    · exact Or.inl rfl
  · cases x with
    | fin q =>
      show EnergyValue rnd (rnd (r + |q|))
      exact energyValue_of_rnd rnd hr _ (add_nonneg hr0 (abs_nonneg q))
    | pinf => exact Or.inr (Or.inl rfl)
    | ninf => exact Or.inr (Or.inl rfl)
    | nan => exact Or.inl rfl

theorem le_mul_lit (y : ℚ) (hy : 0 ≤ y) : y ≤ 2476979795053773 / 2251799813685248 * y := by
  have h : (1 : ℚ) ≤ 2476979795053773 / 2251799813685248 := by norm_num
  nlinarith

/-- A finite energy is not above its own product with `1.1`, nor above the product of
anything at least as large. -/
theorem gt_mul_lit_fin (rnd : ℚ → Fp) (hr : RoundingLaws rnd) (x y : ℚ) (hy : 0 ≤ y)
    (hrep : rnd y = Fp.fin y) (h : Fp.gt (Fp.fin x) (Fp.mul rnd lit_1_1 (Fp.fin y)) = true) :
    y < x := by
  have hm := hr.mono y _ (le_mul_lit y hy)
  rw [hrep] at hm
  have hmul : Fp.mul rnd lit_1_1 (Fp.fin y) = rnd (2476979795053773 / 2251799813685248 * y) :=
    rfl
  rw [hmul] at h
  cases hu : rnd (2476979795053773 / 2251799813685248 * y) with
  | fin z =>
    rw [hu] at h hm
    have h1 : y ≤ z := by simpa [Fp.le] using hm
    have h2 : z < x := by simpa [Fp.gt] using h
    exact lt_of_le_of_lt h1 h2
  | pinf => rw [hu] at h; simp [Fp.gt] at h
  | ninf => rw [hu] at hm; simp [Fp.le] at hm
  | nan => rw [hu] at h; simp [Fp.gt] at h

theorem gt_mul_lit_exclusive (rnd : ℚ → Fp) (hr : RoundingLaws rnd) (a b : Fp)
    (ha : EnergyValue rnd a) (hb : EnergyValue rnd b)
    (h : Fp.gt a (Fp.mul rnd lit_1_1 b) = true) :
    Fp.gt b (Fp.mul rnd lit_1_1 a) = false := by
  rcases ha with rfl | rfl | ⟨x, hx0, rfl, hxr⟩
  · simp [Fp.gt] at h
  · rcases hb with rfl | rfl | ⟨y, _, rfl, _⟩
    · simp [Fp.gt, Fp.mul, lit_1_1] at h
    · simp [Fp.gt, Fp.mul, lit_1_1, Fp.mul_inf] at h
    · simp [Fp.gt, Fp.mul, lit_1_1, Fp.mul_inf]
  · rcases hb with rfl | rfl | ⟨y, hy0, rfl, hyr⟩
    · simp [Fp.gt, Fp.mul, lit_1_1] at h
    · simp [Fp.gt, Fp.mul, lit_1_1, Fp.mul_inf] at h
    · have hlt := gt_mul_lit_fin rnd hr x y hy0 hyr h
      by_contra hc
      have hc2 : Fp.gt (Fp.fin y) (Fp.mul rnd lit_1_1 (Fp.fin x)) = true := by
        simpa using hc
      have := gt_mul_lit_fin rnd hr y x hx0 hxr hc2
      exact absurd hlt (not_lt.mpr (le_of_lt this))

theorem gt_mul_lit_self (rnd : ℚ → Fp) (hr : RoundingLaws rnd) (a : Fp)
    (ha : EnergyValue rnd a) : Fp.gt a (Fp.mul rnd lit_1_1 a) = false := by
  by_contra hc
  have hc2 : Fp.gt a (Fp.mul rnd lit_1_1 a) = true := by simpa using hc
  have := gt_mul_lit_exclusive rnd hr a a ha ha hc2
  rw [this] at hc2
  cases hc2

theorem energy_loop_swap (rnd : ℚ → Fp) (c0 c1 : List Fp) (js : List Nat) (e : Fp × Fp) :
    energy_loop rnd c1 c0 js e.swap = (energy_loop rnd c0 c1 js e).map Prod.swap := by
  induction js generalizing e with
  | nil => rfl
  | cons j js ih =>
    simp only [energy_loop]
    cases h0 : c0[j]? with
    | none => cases h1 : c1[j]? <;> rfl
    | some x0 =>
      cases h1 : c1[j]? with
      | none => rfl
      | some x1 => exact ih (Fp.add rnd e.1 (Fp.fabs x0), Fp.add rnd e.2 (Fp.fabs x1))

theorem energy_loop_some (rnd : ℚ → Fp) (hr : RoundingLaws rnd) (c0 c1 : List Fp)
    (js : List Nat) (e : Fp × Fp) (hjs : ∀ j ∈ js, j < c0.length ∧ j < c1.length)
    (h1 : EnergyValue rnd e.1) (h2 : EnergyValue rnd e.2) :
    ∃ r, energy_loop rnd c0 c1 js e = some r ∧ EnergyValue rnd r.1 ∧ EnergyValue rnd r.2 := by
  induction js generalizing e with
  | nil => exact ⟨e, rfl, h1, h2⟩
  | cons j js ih =>
    have hj := hjs j (List.mem_cons_self j js)
    simp only [energy_loop, List.getElem?_eq_getElem hj.1, List.getElem?_eq_getElem hj.2]
    exact ih _ (fun k hk => hjs k (List.mem_cons_of_mem j hk))
      (energyValue_add rnd hr _ _ h1) (energyValue_add rnd hr _ _ h2)

theorem timestamp_to_sample_nonneg (sr t n : Int) : 0 ≤ timestamp_to_sample sr t n := by
  unfold timestamp_to_sample
  exact le_max_left _ _

theorem sample_index_lt_length (sr t : Int) (len j : Nat)
    (hj : (j : Int) < timestamp_to_sample sr t (to_int32 (to_int64 len))) : j < len := by
  unfold timestamp_to_sample at hj
  generalize to_int32 ((to_int64 (t * sr)).tdiv 100) = x at hj
  unfold to_int32 to_int64 at hj
  omega

theorem window_energy_pair (sr : Int) (rnd : ℚ → Fp) (hr : RoundingLaws rnd)
    (c0 c1 : List Fp) (hlen : c0.length = c1.length) (t0 t1 : Int) :
    ∃ e0 e1,
      window_energy sr rnd [c0, c1] t0 t1 = some (e0, e1) ∧
      window_energy sr rnd [c1, c0] t0 t1 = some (e1, e0) ∧
      EnergyValue rnd e0 ∧ EnergyValue rnd e1 ∧
      (t0 = t1 → e0 = Fp.fin 0 ∧ e1 = Fp.fin 0) := by
  have hb : ∀ j ∈ List.range' (timestamp_to_sample sr t0 (to_int32 (to_int64 c0.length))).toNat
      (timestamp_to_sample sr t1 (to_int32 (to_int64 c0.length))
        - timestamp_to_sample sr t0 (to_int32 (to_int64 c0.length))).toNat,
      j < c0.length ∧ j < c1.length := by
    intro j hj
    rw [List.mem_range'_1] at hj
    have h0 := timestamp_to_sample_nonneg sr t0 (to_int32 (to_int64 c0.length))
    have : j < c0.length := sample_index_lt_length sr t1 c0.length j (by omega)
    exact ⟨this, hlen ▸ this⟩
  obtain ⟨r, hr1, hg1, hg2⟩ := energy_loop_some rnd hr c0 c1 _ (Fp.fin 0, Fp.fin 0) hb
    (energyValue_zero rnd hr) (energyValue_zero rnd hr)
  have hsw := energy_loop_swap rnd c0 c1
    (List.range' (timestamp_to_sample sr t0 (to_int32 (to_int64 c0.length))).toNat
      (timestamp_to_sample sr t1 (to_int32 (to_int64 c0.length))
        - timestamp_to_sample sr t0 (to_int32 (to_int64 c0.length))).toNat) (Fp.fin 0, Fp.fin 0)
  rw [hr1] at hsw
  refine ⟨r.1, r.2, ?_, ?_, hg1, hg2, ?_⟩
  · simpa [window_energy] using hr1
  · simp only [window_energy, List.getElem?_cons_zero, List.getElem?_cons_succ,
      Option.getD_some, ← hlen]
    simpa using hsw
  · intro ht
    subst ht
    simp only [sub_self, Int.toNat_zero, List.range'_zero, energy_loop] at hr1
    cases hr1
    exact ⟨rfl, rfl⟩

theorem demo_window :
    window_energy 16000 Fp.fin [demo_loud, demo_silent] 0 1 = some (Fp.fin 1, Fp.fin 0) := by
  have h0 : timestamp_to_sample 16000 0 (to_int32 (to_int64 2)) = 0 := by decide
  have h1 : timestamp_to_sample 16000 1 (to_int32 (to_int64 2)) = 1 := by decide
  simp [window_energy, demo_loud, demo_silent, h0, h1, energy_loop, Fp.add, Fp.fabs]

/-! ## Lemmas on `transcribe` -/

theorem language_rules_n_processors (m : Bool) (params : whisper_params) :
    (language_rules m params).n_processors = params.n_processors := by
  unfold language_rules
  cases m <;> simp <;> split <;> (try split) <;> rfl

theorem transcribe_decode_fail (E : Engine) (s : State) (audio_path language : String)
    (beam_size : Int) (hlock : s.whisper_mutex = false)
    (hwav : E.read_wav audio_path false = none) :
    transcribe E s audio_path language beam_size
      = some ({ s with whisper_mutex := false }, { success := false, segments := [] }) := by
  have hp : (request_params E language beam_size).diarize = false := rfl
  unfold transcribe
  simp only [mutex_lock, hlock, Bool.false_eq_true, if_false]
  rw [hp, hwav]
  rfl

theorem transcribe_run_fail (E : Engine) (s : State) (audio_path language : String)
    (beam_size : Int) (pcmf32 : List Fp) (pcmf32s : List (List Fp))
    (hlock : s.whisper_mutex = false)
    (hwav : E.read_wav audio_path false = some (pcmf32, pcmf32s))
    (hrun : (E.whisper_full_parallel s.g_ctx
      (transcribe_wparams E s.g_ctx language beam_size) pcmf32 1).1 ≠ 0) :
    transcribe E s audio_path language beam_size
      = some ({ g_ctx := s.g_ctx, whisper_mutex := false,
                calls := s.calls ++ [.is_multilingual s.g_ctx,
                  .full_parallel s.g_ctx (transcribe_wparams E s.g_ctx language beam_size) 1] },
              { success := false, segments := [] }) := by
  have hp : (request_params E language beam_size).diarize = false := rfl
  have hn : (language_rules (E.whisper_is_multilingual s.g_ctx)
      (request_params E language beam_size)).n_processors = 1 :=
    language_rules_n_processors _ _
  unfold transcribe_wparams at hrun ⊢
  unfold transcribe
  simp only [mutex_lock, hlock, Bool.false_eq_true, if_false]
  rw [hp, hwav]
  simp only [State.call, hn, mutex_unlock]
  simp [hrun]

theorem transcribe_run_ok (E : Engine) (s : State) (audio_path language : String)
    (beam_size : Int) (pcmf32 : List Fp) (pcmf32s : List (List Fp))
    (hlock : s.whisper_mutex = false)
    (hwav : E.read_wav audio_path false = some (pcmf32, pcmf32s))
    (hrun : (E.whisper_full_parallel s.g_ctx
      (transcribe_wparams E s.g_ctx language beam_size) pcmf32 1).1 = 0) :
    transcribe E s audio_path language beam_size
      = some ({ g_ctx := s.g_ctx, whisper_mutex := false,
                calls := (s.calls ++ [.is_multilingual s.g_ctx,
                  .full_parallel s.g_ctx (transcribe_wparams E s.g_ctx language beam_size) 1])
                  ++ .full_n_segments s.g_ctx :: parse_result_calls s.g_ctx
                    (E.whisper_full_parallel s.g_ctx
                      (transcribe_wparams E s.g_ctx language beam_size) pcmf32 1).2.n_segments },
              { success := true,
                segments := parse_result (E.whisper_full_parallel s.g_ctx
                  (transcribe_wparams E s.g_ctx language beam_size) pcmf32 1).2 }) := by
  have hp : (request_params E language beam_size).diarize = false := rfl
  have hn : (language_rules (E.whisper_is_multilingual s.g_ctx)
      (request_params E language beam_size)).n_processors = 1 :=
    language_rules_n_processors _ _
  unfold transcribe_wparams at hrun ⊢
  unfold transcribe
  simp only [mutex_lock, hlock, Bool.false_eq_true, if_false]
  rw [hp, hwav]
  simp only [State.call, hn, mutex_unlock]
  simp [hrun]

theorem parse_result_length (segs : EngineSegments) :
    (parse_result segs).length = segs.n_segments.toNat := by
  simp [parse_result]

theorem transcribe_wparams_language (E : Engine) (ctx : Option Nat) (language : String)
    (beam_size : Int) :
    (E.whisper_is_multilingual ctx = false →
      (transcribe_wparams E ctx language beam_size).language = "en" ∧
      (transcribe_wparams E ctx language beam_size).translate = false) ∧
    (E.whisper_is_multilingual ctx = true →
      (transcribe_wparams E ctx language beam_size).language = language ∧
      (transcribe_wparams E ctx language beam_size).translate = false) := by
  constructor
  · intro h
    by_cases hl : language = "en"
    · simp [transcribe_wparams, make_wparams, language_rules, h, hl, whisper_params_default,
        request_params]
    · simp [transcribe_wparams, make_wparams, language_rules, h, hl, whisper_params_default,
        request_params]
  · intro h
    simp [transcribe_wparams, make_wparams, language_rules, h, whisper_params_default,
      request_params]

theorem language_rules_override (params : whisper_params)
    (hd : params.detect_language = false)
    (h : params.language ≠ "en" ∨ params.translate = true) :
    (language_rules false params).language = "en" ∧
      (language_rules false params).translate = false := by
  have hc : (params.language ≠ "en" || params.translate) = true := by
    rcases h with h | h
    · simp [h]
    · simp [h]
  simp only [language_rules, Bool.not_false, if_true, hc, hd]
  exact ⟨rfl, rfl⟩

/-! ## Claims on `transcribe` and `load` -/

/-- C1. When the audio decodes and the run of the engine returns 0, `transcribe` returns, with
the mutex free, the flag `success` set and a list that has as many entries as the engine
reports segments; its texts are the texts of the engine in the order of the engine, and the
entry at index `i` has the text of segment `i`. -/
theorem transcribe_success_segments (E : Engine) (s : State) (audio_path language : String)
    (beam_size : Int) (pcmf32 : List Fp) (pcmf32s : List (List Fp)) (segs : EngineSegments)
    (hlock : s.whisper_mutex = false)
    (hwav : E.read_wav audio_path false = some (pcmf32, pcmf32s))
    (hrun : E.whisper_full_parallel s.g_ctx (transcribe_wparams E s.g_ctx language beam_size)
      pcmf32 1 = (0, segs))
    (hn : 0 ≤ segs.n_segments) :
    ∃ s' r, transcribe E s audio_path language beam_size = some (s', r) ∧
      s'.whisper_mutex = false ∧
      r.success = true ∧
      (r.segments.length : Int) = segs.n_segments ∧
      r.segments.map (fun g => g.text)
        = (List.range segs.n_segments.toNat).map (fun (i : Nat) => segs.text (i : Int)) ∧
      ∀ (i : Nat) (hi : i < r.segments.length),
        (r.segments.get ⟨i, hi⟩).text = segs.text (i : Int) := by
  have h0 : (E.whisper_full_parallel s.g_ctx (transcribe_wparams E s.g_ctx language beam_size)
      pcmf32 1).1 = 0 := by rw [hrun]
  have h := transcribe_run_ok E s audio_path language beam_size pcmf32 pcmf32s hlock hwav h0
  rw [hrun] at h
  refine ⟨_, _, h, rfl, rfl, ?_, ?_, ?_⟩
  · simp only [parse_result_length]
    omega
  · simp [parse_result]
  · intro i hi
    simp [parse_result]

/-- C1, at the concrete engine: `a.wav` is transcribed into the two segments of the engine. -/
theorem transcribe_success_segments_witness :
    demo_loaded.whisper_mutex = false ∧
    demo_engine.read_wav "a.wav" false = some ([Fp.fin 0, Fp.fin 1], []) ∧
    demo_engine.whisper_full_parallel demo_loaded.g_ctx
      (transcribe_wparams demo_engine demo_loaded.g_ctx "auto" 5) [Fp.fin 0, Fp.fin 1] 1
      = (0, demo_segments) ∧
    0 ≤ demo_segments.n_segments ∧
    ∃ s' r, transcribe demo_engine demo_loaded "a.wav" "auto" 5 = some (s', r) ∧
      s'.whisper_mutex = false ∧
      r.success = true ∧
      (r.segments.length : Int) = demo_segments.n_segments ∧
      r.segments.map (fun g => g.text)
        = (List.range demo_segments.n_segments.toNat).map
            (fun (i : Nat) => demo_segments.text (i : Int)) ∧
      ∀ (i : Nat) (hi : i < r.segments.length),
        (r.segments.get ⟨i, hi⟩).text = demo_segments.text (i : Int) :=
  ⟨rfl, rfl, rfl, by decide,
    transcribe_success_segments demo_engine demo_loaded "a.wav" "auto" 5 [Fp.fin 0, Fp.fin 1] []
      demo_segments rfl rfl rfl (by decide)⟩

/-- C2, refuted as stated: on `a.wav` the engine reports the times `0, 150` and `150, 320`
(centiseconds) and `transcribe` returns `0, 1500` and `1500, 3200`. -/
theorem transcribe_times_not_centiseconds :
    (transcribe demo_engine demo_loaded "a.wav" "auto" 5).map
        (fun x => (x.2.success, x.2.segments.map fun g => (g.start_tm, g.end_tm)))
      = some (true, [(0, 1500), (1500, 3200)]) ∧
    (demo_segments.t0 0, demo_segments.t1 0) = (0, 150) ∧
    (demo_segments.t0 1, demo_segments.t1 1) = (150, 320) := by
  decide

/-- C2 (amended). On a successful `transcribe` the entry at index `i` has
`start_tm = 10 * t0` and `end_tm = 10 * t1` for the times `t0`, `t1` the engine reports for
segment `i`: the times are milliseconds. So `end_tm ≥ start_tm` whenever `t1 ≥ t0`. The products
are assumed to fit an `int64_t`. -/
theorem transcribe_segment_times (E : Engine) (s : State) (audio_path language : String)
    (beam_size : Int) (pcmf32 : List Fp) (pcmf32s : List (List Fp)) (segs : EngineSegments)
    (hlock : s.whisper_mutex = false)
    (hwav : E.read_wav audio_path false = some (pcmf32, pcmf32s))
    (hrun : E.whisper_full_parallel s.g_ctx (transcribe_wparams E s.g_ctx language beam_size)
      pcmf32 1 = (0, segs))
    (hfit : ∀ i : Nat, (i : Int) < segs.n_segments →
      -9223372036854775808 ≤ segs.t0 (i : Int) * 10 ∧
      segs.t0 (i : Int) * 10 < 9223372036854775808 ∧
      -9223372036854775808 ≤ segs.t1 (i : Int) * 10 ∧
      segs.t1 (i : Int) * 10 < 9223372036854775808) :
    ∃ s' r, transcribe E s audio_path language beam_size = some (s', r) ∧
      r.success = true ∧
      ∀ (i : Nat) (hi : i < r.segments.length),
        (r.segments.get ⟨i, hi⟩).start_tm = segs.t0 (i : Int) * 10 ∧
        (r.segments.get ⟨i, hi⟩).end_tm = segs.t1 (i : Int) * 10 ∧
        (segs.t0 (i : Int) ≤ segs.t1 (i : Int) →
          (r.segments.get ⟨i, hi⟩).start_tm ≤ (r.segments.get ⟨i, hi⟩).end_tm) := by
  have h0 : (E.whisper_full_parallel s.g_ctx (transcribe_wparams E s.g_ctx language beam_size)
      pcmf32 1).1 = 0 := by rw [hrun]
  have h := transcribe_run_ok E s audio_path language beam_size pcmf32 pcmf32s hlock hwav h0
  rw [hrun] at h
  refine ⟨_, _, h, rfl, ?_⟩
  intro i hi
  have hi' : i < segs.n_segments.toNat := by
    simpa [parse_result_length] using hi
  obtain ⟨a1, a2, a3, a4⟩ := hfit i (by omega)
  have e0 : ((parse_result segs).get ⟨i, hi⟩).start_tm = segs.t0 (i : Int) * 10 := by
    simp [parse_result, to_int64_of_range _ a1 a2]
  have e1 : ((parse_result segs).get ⟨i, hi⟩).end_tm = segs.t1 (i : Int) * 10 := by
    simp [parse_result, to_int64_of_range _ a3 a4]
  refine ⟨e0, e1, ?_⟩
  intro hle
  rw [e0, e1]
  omega

/-- C2 (amended), at the concrete engine. -/
theorem transcribe_segment_times_witness :
    demo_loaded.whisper_mutex = false ∧
    demo_engine.read_wav "a.wav" false = some ([Fp.fin 0, Fp.fin 1], []) ∧
    demo_engine.whisper_full_parallel demo_loaded.g_ctx
      (transcribe_wparams demo_engine demo_loaded.g_ctx "auto" 5) [Fp.fin 0, Fp.fin 1] 1
      = (0, demo_segments) ∧
    ∃ s' r, transcribe demo_engine demo_loaded "a.wav" "auto" 5 = some (s', r) ∧
      r.success = true ∧
      ∀ (i : Nat) (hi : i < r.segments.length),
        (r.segments.get ⟨i, hi⟩).start_tm = demo_segments.t0 (i : Int) * 10 ∧
        (r.segments.get ⟨i, hi⟩).end_tm = demo_segments.t1 (i : Int) * 10 ∧
        (demo_segments.t0 (i : Int) ≤ demo_segments.t1 (i : Int) →
          (r.segments.get ⟨i, hi⟩).start_tm ≤ (r.segments.get ⟨i, hi⟩).end_tm) :=
  ⟨rfl, rfl, rfl,
    transcribe_segment_times demo_engine demo_loaded "a.wav" "auto" 5 [Fp.fin 0, Fp.fin 1] []
      demo_segments rfl rfl rfl (by
        intro i _
        simp only [demo_segments]
        split <;> decide)⟩

/-- C3. With a context loaded and the mutex free, `transcribe` returns; the context handle is
the one held before the call and the mutex is free again. The result has `success = false`
exactly when the audio does not decode or the run of the engine returns a status other than 0,
and then its list of segments is empty. -/
theorem transcribe_failure (E : Engine) (s : State) (audio_path language : String)
    (beam_size : Int) (h : Nat) (hlock : s.whisper_mutex = false) (hctx : s.g_ctx = some h) :
    ∃ s' r, transcribe E s audio_path language beam_size = some (s', r) ∧
      s'.g_ctx = some h ∧
      s'.whisper_mutex = false ∧
      (r.success = false ↔
        (E.read_wav audio_path false = none ∨
          ∃ pcmf32 pcmf32s, E.read_wav audio_path false = some (pcmf32, pcmf32s) ∧
            (E.whisper_full_parallel (some h)
              (transcribe_wparams E (some h) language beam_size) pcmf32 1).1 ≠ 0)) ∧
      (r.success = false → r.segments = []) := by
  cases hwav : E.read_wav audio_path false with
  | none =>
    refine ⟨_, _, transcribe_decode_fail E s audio_path language beam_size hlock hwav,
      hctx, rfl, ?_, fun _ => rfl⟩
    exact ⟨fun _ => Or.inl rfl, fun _ => rfl⟩
  | some p =>
    obtain ⟨pcmf32, pcmf32s⟩ := p
    by_cases hrun : (E.whisper_full_parallel s.g_ctx
        (transcribe_wparams E s.g_ctx language beam_size) pcmf32 1).1 = 0
    · refine ⟨_, _,
        transcribe_run_ok E s audio_path language beam_size pcmf32 pcmf32s hlock hwav hrun,
        hctx, rfl, ?_, ?_⟩
      · constructor
        · intro hs
          cases hs
        · rintro (hnone | ⟨q, qs, hq, hne⟩)
          · cases hnone
          · cases hq
            rw [hctx] at hrun
            exact absurd hrun hne
      · intro hs
        cases hs
    · refine ⟨_, _,
        transcribe_run_fail E s audio_path language beam_size pcmf32 pcmf32s hlock hwav hrun,
        hctx, rfl, ?_, fun _ => rfl⟩
      constructor
      · intro _
        refine Or.inr ⟨pcmf32, pcmf32s, rfl, ?_⟩
        rw [hctx] at hrun
        exact hrun
      · intro _
        rfl

/-- C3, at the concrete engine, on an audio file that does not decode. -/
theorem transcribe_failure_witness :
    demo_loaded.whisper_mutex = false ∧ demo_loaded.g_ctx = some 1 ∧
    ∃ s' r, transcribe demo_engine demo_loaded "missing.wav" "auto" 5 = some (s', r) ∧
      s'.g_ctx = some 1 ∧
      s'.whisper_mutex = false ∧
      (r.success = false ↔
        (demo_engine.read_wav "missing.wav" false = none ∨
          ∃ pcmf32 pcmf32s, demo_engine.read_wav "missing.wav" false = some (pcmf32, pcmf32s) ∧
            (demo_engine.whisper_full_parallel (some 1)
              (transcribe_wparams demo_engine (some 1) "auto" 5) pcmf32 1).1 ≠ 0)) ∧
      (r.success = false → r.segments = []) :=
  ⟨rfl, rfl, transcribe_failure demo_engine demo_loaded "missing.wav" "auto" 5 1 rfl rfl⟩

/-- C4, the code at the failing input: before any `load`, on an audio file that decodes,
`transcribe` makes every one of its engine calls on the null context, the first of them
`whisper_is_multilingual`, and returns what the engine answers there; with the concrete engine
that is `success = true` and two segments. -/
theorem transcribe_without_context :
    demo_unloaded.g_ctx = none ∧
    (transcribe demo_engine demo_unloaded "a.wav" "auto" 5).map
        (fun x => (x.2.success, x.2.segments.length, x.1.calls.take 1,
          x.1.calls.filterMap EngineCall.ctx))
      = some (true, 2, [EngineCall.is_multilingual none],
          [none, none, none, none, none, none, none, none, none]) := by
  decide

/-- C5, refuted as stated: with the context `1` held, a `load` of a model file the engine
cannot initialize returns `-1` and leaves no context: `is_initialized()` was true before the
call and is false after it. -/
theorem load_failure_drops_context :
    demo_engine.whisper_init_from_file_with_params "missing.bin" = none ∧
    is_initialized demo_loaded = true ∧
    (load demo_engine demo_loaded "missing.bin").map
        (fun x => (x.2, x.1.g_ctx, is_initialized x.1))
      = some (-1, none, false) := by
  decide

/-- C5 (amended). A `load` whose engine initialization returns a null handle returns `-1`
with the mutex free and leaves the context handle null, whatever was held before, so
`is_initialized()` is false after it; the handle is the one held before only when none was
held. -/
theorem load_failure (E : Engine) (s : State) (model_path : String)
    (hlock : s.whisper_mutex = false)
    (hinit : E.whisper_init_from_file_with_params model_path = none) :
    ∃ s', load E s model_path = some (s', -1) ∧
      s'.g_ctx = none ∧
      is_initialized s' = false ∧
      s'.whisper_mutex = false ∧
      (s'.g_ctx = s.g_ctx ↔ s.g_ctx = none) := by
  refine ⟨{ g_ctx := none, whisper_mutex := false,
            calls := s.calls ++ [.init_from_file model_path] }, ?_, rfl, rfl, rfl, ?_⟩
  · simp [load, mutex_lock, mutex_unlock, hlock, hinit, State.call]
  · exact ⟨fun h => h.symm, fun h => h.symm⟩

/-- C5 (amended), at the concrete engine with a context held. -/
theorem load_failure_witness :
    demo_loaded.whisper_mutex = false ∧
    demo_engine.whisper_init_from_file_with_params "missing.bin" = none ∧
    ∃ s', load demo_engine demo_loaded "missing.bin" = some (s', -1) ∧
      s'.g_ctx = none ∧
      is_initialized s' = false ∧
      s'.whisper_mutex = false ∧
      (s'.g_ctx = demo_loaded.g_ctx ↔ demo_loaded.g_ctx = none) :=
  ⟨rfl, by decide, load_failure demo_engine demo_loaded "missing.bin" rfl (by decide)⟩

/-- C6. When the audio decodes, the engine is run once, on the held context, with the
configuration `transcribe_wparams`. If the model is not multilingual that configuration has the
language `en` and `translate = false`, whatever language was asked; if the model is
multilingual it has the language of the caller. The block of the language rules itself, on any
parameters without language detection, forces `en` and no translation for a model that is not
multilingual as soon as another language or a translation is requested. -/
theorem transcribe_language_config (E : Engine) (s : State) (audio_path language : String)
    (beam_size : Int) (pcmf32 : List Fp) (pcmf32s : List (List Fp))
    (hlock : s.whisper_mutex = false)
    (hwav : E.read_wav audio_path false = some (pcmf32, pcmf32s)) :
    ∃ s' r rest, transcribe E s audio_path language beam_size = some (s', r) ∧
      s'.calls = s.calls ++
        EngineCall.is_multilingual s.g_ctx ::
        EngineCall.full_parallel s.g_ctx (transcribe_wparams E s.g_ctx language beam_size) 1 ::
        rest ∧
      (∀ c ∈ rest, ∀ ctx w n, c ≠ EngineCall.full_parallel ctx w n) ∧
      (E.whisper_is_multilingual s.g_ctx = false →
        (transcribe_wparams E s.g_ctx language beam_size).language = "en" ∧
        (transcribe_wparams E s.g_ctx language beam_size).translate = false) ∧
      (E.whisper_is_multilingual s.g_ctx = true →
        (transcribe_wparams E s.g_ctx language beam_size).language = language) ∧
      (∀ params : whisper_params, params.detect_language = false →
        (params.language ≠ "en" ∨ params.translate = true) →
        (language_rules false params).language = "en" ∧
        (language_rules false params).translate = false) := by
  have hl := transcribe_wparams_language E s.g_ctx language beam_size
  by_cases hrun : (E.whisper_full_parallel s.g_ctx
      (transcribe_wparams E s.g_ctx language beam_size) pcmf32 1).1 = 0
  · refine ⟨_, _, EngineCall.full_n_segments s.g_ctx :: parse_result_calls s.g_ctx
        (E.whisper_full_parallel s.g_ctx
          (transcribe_wparams E s.g_ctx language beam_size) pcmf32 1).2.n_segments,
      transcribe_run_ok E s audio_path language beam_size pcmf32 pcmf32s hlock hwav hrun,
      ?_, ?_, hl.1, fun h => (hl.2 h).1, language_rules_override⟩
    · simp only [List.append_assoc, List.cons_append, List.nil_append]
    · intro c hc ctx w n
      simp only [List.mem_cons, parse_result_calls, List.mem_flatMap, List.mem_range,
        List.mem_singleton] at hc
      rcases hc with rfl | ⟨i, _, rfl | rfl | rfl | hf⟩
      · simp
      · simp
      · simp
      · simp
      · cases hf
  · refine ⟨_, _, [],
      transcribe_run_fail E s audio_path language beam_size pcmf32 pcmf32s hlock hwav hrun,
      rfl, ?_, hl.1, fun h => (hl.2 h).1, language_rules_override⟩
    intro c hc
    cases hc

/-- C6, at the concrete engine, whose model is not multilingual, with the default language
argument `auto`. -/
theorem transcribe_language_config_witness :
    demo_loaded.whisper_mutex = false ∧
    demo_engine.read_wav "a.wav" false = some ([Fp.fin 0, Fp.fin 1], []) ∧
    demo_engine.whisper_is_multilingual demo_loaded.g_ctx = false ∧
    (transcribe_wparams demo_engine demo_loaded.g_ctx "auto" 5).language = "en" ∧
    (transcribe_wparams demo_engine demo_loaded.g_ctx "auto" 5).translate = false := by
  obtain ⟨_, _, _, _, _, _, h, _⟩ :=
    transcribe_language_config demo_engine demo_loaded "a.wav" "auto" 5 [Fp.fin 0, Fp.fin 1] []
      rfl rfl
  exact ⟨rfl, rfl, rfl, h rfl⟩

/-! ## Claims on the timestamp formatter -/

/-- C7, refuted as stated: one hundred hours, `t = 36000000`, is printed with three digits of
hours, `100:00:00.000`, so it is not of the shape `HH:MM:SS.mmm` with two digits of hours,
whatever the twelve characters. -/
theorem to_timestamp_hundred_hours :
    to_timestamp 36000000 false = "100:00:00.000" ∧
    (36000000 * 10 / 3600000 : Int) = 100 ∧
    ¬ ∃ h1 h2 m1 m2 s1 s2 f1 f2 f3 : Char, to_timestamp 36000000 false
      = String.mk [h1, h2, ':', m1, m2, ':', s1, s2, '.', f1, f2, f3] := by
  refine ⟨by decide, by decide, ?_⟩
  rintro ⟨h1, h2, m1, m2, s1, s2, f1, f2, f3, h⟩
  have hl := congrArg String.length h
  have h13 : (to_timestamp 36000000 false).length = 13 := by decide
  rw [h13] at hl
  simp [String.length] at hl

/-- C7 (amended). For `t ≥ 0` whose hours `HH = t*10 / 3600000` fit an `int`,
`to_timestamp t` is the hours, a colon, two digits of minutes `MM = (t*10 / 60000) mod 60`, a
colon, two digits of seconds `SS = (t*10 / 1000) mod 60`, a period (a comma when `comma` is
set) and three digits of milliseconds `mmm = (t*10) mod 1000`. The hours are printed with two
digits when `t < 36000000` and with all their digits, three or more, from there on. In
particular `to_timestamp 0` is `00:00:00.000`. -/
theorem to_timestamp_format (t : Int) (comma : Bool) (h0 : 0 ≤ t)
    (hhr : t * 10 / 3600000 < 2147483648) :
    to_timestamp t comma = String.mk
      (fmt_d 2 (t * 10 / 3600000) ++ ':' :: two_digits (t * 10 / 60000 % 60)
        ++ ':' :: two_digits (t * 10 / 1000 % 60)
        ++ (if comma then ',' else '.') :: three_digits (t * 10 % 1000)) ∧
    (t < 36000000 → fmt_d 2 (t * 10 / 3600000) = two_digits (t * 10 / 3600000)) ∧
    (36000000 ≤ t → fmt_d 2 (t * 10 / 3600000) = natDigits (t * 10 / 3600000).toNat ∧
      3 ≤ (natDigits (t * 10 / 3600000).toNat).length) ∧
    to_timestamp 0 false = "00:00:00.000" := by
  refine ⟨to_timestamp_eq t comma h0 hhr, ?_, ?_, by decide⟩
  · intro ht
    exact fmt_d_two _ (by omega) (by omega)
  · intro ht
    refine ⟨fmt_d_two_of_ge _ (by omega), ?_⟩
    apply natDigits_length_ge_three
    omega

/-- C7 (amended), at `t = 500` with the period as separator. -/
theorem to_timestamp_format_witness :
    (0 : Int) ≤ 500 ∧ (500 * 10 / 3600000 : Int) < 2147483648 ∧
    to_timestamp 500 false = String.mk
      (fmt_d 2 (500 * 10 / 3600000) ++ ':' :: two_digits (500 * 10 / 60000 % 60)
        ++ ':' :: two_digits (500 * 10 / 1000 % 60)
        ++ (if false then ',' else '.') :: three_digits (500 * 10 % 1000)) :=
  ⟨by decide, by decide, (to_timestamp_format 500 false (by decide) (by decide)).1⟩

/-- C8, refuted as stated: `to_timestamp 6000` is not `01:00:00.000`. -/
theorem to_timestamp_6000_not_one_hour :
    to_timestamp 6000 false = "00:01:00.000" ∧
    to_timestamp 6000 false ≠ "01:00:00.000" := by
  decide

/-- C8 (amended). `to_timestamp 6000` is `00:01:00.000`, one minute, and `to_timestamp 500` is
`00:00:05.000`. -/
theorem to_timestamp_examples :
    to_timestamp 6000 false = "00:01:00.000" ∧ to_timestamp 500 false = "00:00:05.000" := by
  decide

/-! ## Claim on the sample index -/

/-- C9, the code at the failing input: with the sample rate 16000, `t = 13421773` and two
samples, `(t * 16000) / 100 = 2147483680` does not fit an `int`; the conversion makes it
`-2147483616` and `timestamp_to_sample` returns `0`, where the clamped index is `1`. The
result does lie in `[0, n_samples - 1]` for every `t` and every sample count of an `int`. -/
theorem timestamp_to_sample_overflow :
    timestamp_to_sample 16000 13421773 2 = 0 ∧
    sample_index_spec 16000 13421773 2 = 1 ∧
    (13421773 * 16000 : Int).tdiv 100 = 2147483680 ∧
    to_int32 2147483680 = -2147483616 ∧
    ∀ sr t n : Int, 1 ≤ n → n < 2147483648 →
      0 ≤ timestamp_to_sample sr t n ∧ timestamp_to_sample sr t n ≤ n - 1 := by
  refine ⟨by decide, by decide, by decide, by decide, ?_⟩
  intro sr t n h1 h2
  unfold timestamp_to_sample
  generalize to_int32 ((to_int64 (t * sr)).tdiv 100) = x
  unfold to_int32
  omega

/-! ## Claims on the diarization estimator -/

/-- C10. For two channels of equal length, any window and either value of `id_only`,
`estimate_diarization_speaker` returns on both orders of the channels, the energies of the
swapped call are the energies swapped, the two winning conditions never hold together, a
channel that wins on `(c0, c1)` makes the swapped call return the other identifier, equal
energies give `?` on both orders, and so does a window of length zero (`t0 = t1`); the
decorated form of `?` is `(speaker ?)`. The rounding of the floating-point format is any
rounding with the laws `RoundingLaws`. -/
theorem diarization_symmetric (sr : Int) (rnd : ℚ → Fp) (hr : RoundingLaws rnd)
    (c0 c1 : List Fp) (hlen : c0.length = c1.length) (t0 t1 : Int) (id_only : Bool) :
    ∃ e0 e1,
      window_energy sr rnd [c0, c1] t0 t1 = some (e0, e1) ∧
      window_energy sr rnd [c1, c0] t0 t1 = some (e1, e0) ∧
      ¬ (Fp.gt e0 (Fp.mul rnd lit_1_1 e1) = true ∧ Fp.gt e1 (Fp.mul rnd lit_1_1 e0) = true) ∧
      (Fp.gt e0 (Fp.mul rnd lit_1_1 e1) = true →
        estimate_diarization_speaker sr rnd [c0, c1] t0 t1 id_only
            = some (speaker_label id_only "0") ∧
          estimate_diarization_speaker sr rnd [c1, c0] t0 t1 id_only
            = some (speaker_label id_only "1")) ∧
      (Fp.gt e1 (Fp.mul rnd lit_1_1 e0) = true →
        estimate_diarization_speaker sr rnd [c0, c1] t0 t1 id_only
            = some (speaker_label id_only "1") ∧
          estimate_diarization_speaker sr rnd [c1, c0] t0 t1 id_only
            = some (speaker_label id_only "0")) ∧
      (e0 = e1 ∨ t0 = t1 →
        estimate_diarization_speaker sr rnd [c0, c1] t0 t1 id_only
            = some (speaker_label id_only "?") ∧
          estimate_diarization_speaker sr rnd [c1, c0] t0 t1 id_only
            = some (speaker_label id_only "?")) ∧
      speaker_label true "?" = "?" ∧ speaker_label false "?" = "(speaker ?)" := by
  obtain ⟨e0, e1, h01, h10, hg0, hg1, hz⟩ := window_energy_pair sr rnd hr c0 c1 hlen t0 t1
  have hex : Fp.gt e0 (Fp.mul rnd lit_1_1 e1) = true →
      Fp.gt e1 (Fp.mul rnd lit_1_1 e0) = false :=
    gt_mul_lit_exclusive rnd hr e0 e1 hg0 hg1
  have hq : e0 = e1 ∨ t0 = t1 → Fp.gt e0 (Fp.mul rnd lit_1_1 e1) = false ∧
      Fp.gt e1 (Fp.mul rnd lit_1_1 e0) = false := by
    intro h
    have he : e0 = e1 := by
      rcases h with h | h
      · exact h
      · rw [(hz h).1, (hz h).2]
    subst he
    exact ⟨gt_mul_lit_self rnd hr e0 hg0, gt_mul_lit_self rnd hr e0 hg0⟩
  refine ⟨e0, e1, h01, h10, ?_, ?_, ?_, ?_, by decide, by decide⟩
  · rintro ⟨ha, hb⟩
    rw [hex ha] at hb
    cases hb
  · intro ha
    simp [estimate_diarization_speaker, h01, h10, ha, hex ha]
  · intro hb
    have ha : Fp.gt e0 (Fp.mul rnd lit_1_1 e1) = false := by
      by_contra hc
      have hc2 : Fp.gt e0 (Fp.mul rnd lit_1_1 e1) = true := by simpa using hc
      rw [hex hc2] at hb
      cases hb
    simp [estimate_diarization_speaker, h01, h10, ha, hb]
  · intro h
    obtain ⟨ha, hb⟩ := hq h
    simp [estimate_diarization_speaker, h01, h10, ha, hb]

/-- C10, at a concrete input: a loud channel against a silent one, over the first sample, with
exact arithmetic as the rounding. The loud channel wins as channel 0, and as channel 1 once
the channels are swapped. -/
theorem diarization_symmetric_witness :
    RoundingLaws Fp.fin ∧ demo_loud.length = demo_silent.length ∧
      estimate_diarization_speaker 16000 Fp.fin [demo_loud, demo_silent] 0 1 true = some "0" ∧
      estimate_diarization_speaker 16000 Fp.fin [demo_silent, demo_loud] 0 1 true = some "1" := by
  obtain ⟨e0, e1, h01, _, _, hwin, _⟩ :=
    diarization_symmetric 16000 Fp.fin exact_rounding_laws demo_loud demo_silent rfl 0 1 true
  rw [demo_window] at h01
  cases h01
  have hgt : Fp.gt (Fp.fin 1) (Fp.mul Fp.fin lit_1_1 (Fp.fin 0)) = true := by
    simp [Fp.gt, Fp.mul, lit_1_1]
  exact ⟨exact_rounding_laws, rfl, hwin hgt⟩

end PyWhisper
